import Mathlib

/- Shallow embedding of the core of the ollama-chat repository
   (src/ollama_worker.py and src/project_manager.py).

   Python strings are modelled as lists of characters (`PyStr`, one element
   per code point, matching Python `len`), Python ints as `Int` or `Nat`,
   Python list slicing and `str.strip` by explicit helper functions that
   mirror Python's clipping and whitespace rules. -/

abbrev PyStr := List Char

/-- Whitespace test used by Python `str.strip` and `str.split` (the ASCII
whitespace characters; the claims only exercise these). -/
def pyIsSpace (c : Char) : Bool :=
  c == ' ' || c == '\t' || c == '\n' || c == '\r' || c == '\x0b' || c == '\x0c'

/-- Leading-whitespace removal, as in Python `str.strip`. -/
def pyStripL (s : PyStr) : PyStr := s.dropWhile pyIsSpace

/-- Trailing-whitespace removal, as in Python `str.strip`. -/
def pyStripR (s : PyStr) : PyStr := (s.reverse.dropWhile pyIsSpace).reverse

/-- Python `s.strip()`: remove leading and trailing whitespace. -/
def pyStrip (s : PyStr) : PyStr := pyStripL (pyStripR s)

/-- Python `s.strip()` on Lean `String`s. -/
def pyStripS (s : String) : String := String.mk (pyStrip s.data)

/-- Python slice `l[i:]`: a nonnegative start drops that many elements, a
negative start counts from the end and is clipped at 0 (so `l[-0:] = l`,
reproducing the `-0` pitfall of CPython slicing). -/
def pySliceFrom (i : Int) (l : List α) : List α :=
  if 0 ≤ i then l.drop i.toNat else l.drop (l.length - (-i).toNat)

/- ===== ConversationManager (src/ollama_worker.py:242-323) ===== -/

/-- One entry of `ConversationManager.messages`.  The `timestamp` field of
the source dict is omitted: no operation of the class ever reads it. -/
structure Msg where
  role : String
  content : String
deriving DecidableEq, Repr

/-- Number of stored messages whose role is `"system"`. -/
def countSystem (l : List Msg) : Nat :=
  (l.filter (fun m => m.role == "system")).length

/-- `ConversationManager._trim_messages` (src/ollama_worker.py:265-280):
if over capacity, partition into system and non-system messages; with
system messages present keep them plus `other_messages[-keep_count:]`
where `keep_count = max_messages - len(system_messages)` (note the Python
slice semantics when `keep_count <= 0`), else keep `messages[-max:]`. -/
def trimMessages (maxMessages : Nat) (msgs : List Msg) : List Msg :=
  if msgs.length ≤ maxMessages then msgs
  else if (msgs.filter (fun m => m.role == "system")).isEmpty then
    pySliceFrom (-(maxMessages : Int)) msgs
  else
    msgs.filter (fun m => m.role == "system") ++
      pySliceFrom
        (-((maxMessages : Int) - (msgs.filter (fun m => m.role == "system")).length))
        (msgs.filter (fun m => m.role != "system"))

/-- `ConversationManager.add_message` (src/ollama_worker.py:250-263). -/
def addMessage (maxMessages : Nat) (role content : String) (msgs : List Msg) : List Msg :=
  trimMessages maxMessages (msgs ++ [⟨role, content⟩])

/-- `ConversationManager.set_system_message` (src/ollama_worker.py:308-323):
drop all system messages, then prepend one system message when the content
is not blank.  Note that it does not call `_trim_messages`. -/
def setSystemMessage (content : String) (msgs : List Msg) : List Msg :=
  if pyStripS content ≠ "" then
    ⟨"system", content⟩ :: msgs.filter (fun m => m.role != "system")
  else msgs.filter (fun m => m.role != "system")

/-- A conversation-cache operation, as quantified over by the cache claims. -/
inductive ConvOp
  | add (role content : String)
  | setSys (content : String)
deriving DecidableEq, Repr

/-- Apply one cache operation. -/
def applyConvOp (maxMessages : Nat) (msgs : List Msg) : ConvOp → List Msg
  | .add role content => addMessage maxMessages role content msgs
  | .setSys content => setSystemMessage content msgs

/-- Run a sequence of cache operations starting from the empty conversation. -/
def runConvOps (maxMessages : Nat) (ops : List ConvOp) : List Msg :=
  ops.foldl (applyConvOp maxMessages) []

/- ===== OllamaWorker enqueue (src/ollama_worker.py:381-434) ===== -/

inductive WTask
  | loadModels
  | sendMessage
deriving DecidableEq, Repr

/-- The `OllamaWorker` fields read or written by `load_models` and
`send_message` (thread start and Qt signal emission are not state). -/
structure WorkerState where
  isBusy : Bool
  currentTask : Option WTask
  currentModel : Option String
  conv : List Msg
  maxMessages : Nat
deriving DecidableEq, Repr

/-- `OllamaWorker.load_models` (src/ollama_worker.py:381-399): the returned
boolean is the Python return value, paired with the updated worker state. -/
def loadModels (s : WorkerState) : Bool × WorkerState :=
  if s.isBusy then (false, s)
  else (true, { s with currentTask := some WTask.loadModels })

/-- `OllamaWorker.send_message` (src/ollama_worker.py:401-434): rejects when
no model is selected or the worker is busy; otherwise builds the final
message (prepending the stripped context when present), appends it to the
conversation as a user message and records the task. -/
def sendMessageEnqueue (message context : String) (s : WorkerState) : Bool × WorkerState :=
  if s.currentModel.isNone then (false, s)
  else if s.isBusy then (false, s)
  else
    let finalMessage :=
      if pyStripS context ≠ "" then
        pyStripS context ++ "\n\nDOMANDA UTENTE: " ++ message ++
          "\n\nRispondi utilizzando le informazioni del contesto quando rilevanti."
      else message
    (true, { s with
              conv := addMessage s.maxMessages "user" finalMessage s.conv,
              currentTask := some WTask.sendMessage })

/- ===== Generic helper lemmas ===== -/

lemma length_dropWhile_le (p : α → Bool) (l : List α) :
    (l.dropWhile p).length ≤ l.length := by
  induction l with
  | nil => simp [List.dropWhile]
  | cons a t ih =>
    by_cases h : p a
    · rw [List.dropWhile_cons, if_pos h]
      exact Nat.le_succ_of_le ih
    · rw [List.dropWhile_cons, if_neg h]

lemma length_pyStrip_le (s : PyStr) : (pyStrip s).length ≤ s.length := by
  unfold pyStrip pyStripL pyStripR
  calc (List.dropWhile pyIsSpace ((s.reverse.dropWhile pyIsSpace).reverse)).length
      ≤ ((s.reverse.dropWhile pyIsSpace).reverse).length := length_dropWhile_le _ _
    _ = (s.reverse.dropWhile pyIsSpace).length := List.length_reverse _
    _ ≤ s.reverse.length := length_dropWhile_le _ _
    _ = s.length := List.length_reverse _

lemma dropWhile_append_all (p : α → Bool) (X Y : List α) (h : ∀ a ∈ X, p a = true) :
    List.dropWhile p (X ++ Y) = List.dropWhile p Y := by
  induction X with
  | nil => rfl
  | cons a t ih =>
    rw [List.cons_append, List.dropWhile_cons, if_pos (h a (List.mem_cons_self a t))]
    exact ih (fun b hb => h b (List.mem_cons_of_mem a hb))

lemma pyStripR_append_ws (A B : PyStr) (h : ∀ c ∈ B, pyIsSpace c = true) :
    pyStripR (A ++ B) = pyStripR A := by
  unfold pyStripR
  rw [List.reverse_append,
    dropWhile_append_all pyIsSpace B.reverse A.reverse
      (fun c hc => h c (List.mem_reverse.mp hc))]

lemma length_pyStrip_append_ws (A B : PyStr) (h : ∀ c ∈ B, pyIsSpace c = true) :
    (pyStrip (A ++ B)).length ≤ A.length := by
  unfold pyStrip
  rw [pyStripR_append_ws A B h]
  calc (pyStripL (pyStripR A)).length
      ≤ (pyStripR A).length := length_dropWhile_le _ _
    _ ≤ A.length := by
        unfold pyStripR
        rw [List.length_reverse]
        calc (A.reverse.dropWhile pyIsSpace).length
            ≤ A.reverse.length := length_dropWhile_le _ _
          _ = A.length := List.length_reverse _

/- ===== Conversation-cache lemmas ===== -/

lemma countSystem_append (A B : List Msg) :
    countSystem (A ++ B) = countSystem A + countSystem B := by
  simp [countSystem, List.filter_append]

lemma countSystem_eq_zero {l : List Msg} :
    countSystem l = 0 ↔ ∀ m ∈ l, (m.role == "system") = false := by
  simp [countSystem, List.length_eq_zero, List.filter_eq_nil_iff]

lemma countSystem_sublist {l₁ l₂ : List Msg} (h : l₁.Sublist l₂) :
    countSystem l₁ ≤ countSystem l₂ :=
  (h.filter _).length_le

lemma countSystem_filter_ne (l : List Msg) :
    countSystem (l.filter (fun m => m.role != "system")) = 0 := by
  rw [countSystem_eq_zero]
  intro m hm
  have h2 := (List.mem_filter.mp hm).2
  simpa [bne] using h2

/-- The trimming result is always a drop of one of the partitions. -/
lemma pySliceFrom_eq_drop (i : Int) (l : List α) : ∃ k, pySliceFrom i l = l.drop k := by
  unfold pySliceFrom
  split
  · exact ⟨i.toNat, rfl⟩
  · exact ⟨l.length - (-i).toNat, rfl⟩

/-- Invariant of the conversation cache under well-typed use: no system
message sits after the head position. -/
def noSystemInTail (l : List Msg) : Prop := countSystem (l.drop 1) = 0

lemma noSystemInTail_trim (N : Nat) (l : List Msg) (h : noSystemInTail l) :
    noSystemInTail (trimMessages N l) := by
  unfold trimMessages
  split_ifs with h1 h2
  · exact h
  · -- no system message at all
    have hz : countSystem l = 0 := by
      simpa [countSystem, List.isEmpty_iff] using h2
    obtain ⟨k, hk⟩ := pySliceFrom_eq_drop (-(N : Int)) l
    rw [hk]
    unfold noSystemInTail
    have hsub : ((l.drop k).drop 1).Sublist l :=
      ((l.drop k).drop_sublist 1).trans (l.drop_sublist k)
    have := countSystem_sublist hsub
    omega
  · -- some system message present
    cases l with
    | nil => simp at h1
    | cons a t =>
      have ht : countSystem t = 0 := h
      have hft : t.filter (fun m => m.role == "system") = [] :=
        List.length_eq_zero.mp ht
      by_cases pa : (a.role == "system") = true
      · have hsysa : (a :: t).filter (fun m => m.role == "system") = [a] := by
          rw [List.filter_cons, if_pos pa, hft]
        rw [hsysa]
        obtain ⟨k, hk⟩ := pySliceFrom_eq_drop
          (-((N : Int) - ([a] : List Msg).length))
          ((a :: t).filter (fun m => m.role != "system"))
        rw [hk]
        unfold noSystemInTail
        have hsub : (((a :: t).filter (fun m => m.role != "system")).drop k).Sublist
            ((a :: t).filter (fun m => m.role != "system")) :=
          List.drop_sublist k _
        have h1 := countSystem_sublist hsub
        have h2 := countSystem_filter_ne (a :: t)
        simp only [List.cons_append, List.nil_append, List.drop_succ_cons, List.drop_zero]
        omega
      · exfalso
        apply h2
        rw [List.filter_cons, if_neg pa, hft]
        rfl

lemma noSystemInTail_setSys (content : String) (l : List Msg) :
    noSystemInTail (setSystemMessage content l) := by
  unfold setSystemMessage noSystemInTail
  split_ifs
  · simpa using countSystem_filter_ne l
  · have h1 := countSystem_sublist (List.drop_sublist 1 (l.filter (fun m => m.role != "system")))
    have h2 := countSystem_filter_ne l
    omega

lemma noSystemInTail_add (N : Nat) (role content : String) (l : List Msg)
    (hr : (role == "system") = false) (h : noSystemInTail l) :
    noSystemInTail (addMessage N role content l) := by
  apply noSystemInTail_trim
  unfold noSystemInTail at h ⊢
  cases l with
  | nil => simp [countSystem, List.filter, hr]
  | cons a t =>
    have hd : ((a :: t) ++ [(⟨role, content⟩ : Msg)]).drop 1 = t ++ [⟨role, content⟩] := rfl
    rw [hd, countSystem_append]
    have hone : countSystem [(⟨role, content⟩ : Msg)] = 0 := by
      simp [countSystem, List.filter, hr]
    have ht : countSystem t = 0 := h
    omega

/-- The side condition of the amended cache invariant: appends never use
role `"system"` (system messages only enter via `set_system_message`). -/
def convOpOk : ConvOp → Bool
  | .add r _ => r != "system"
  | .setSys _ => true

lemma runConvOps_inv (N : Nat) : ∀ (ops : List ConvOp) (s : List Msg),
    noSystemInTail s → (ops.all convOpOk) = true →
    noSystemInTail (ops.foldl (applyConvOp N) s) := by
  intro ops
  induction ops with
  | nil => intro s hs _; simpa using hs
  | cons op rest ih =>
    intro s hs hall
    rw [List.all_cons, Bool.and_eq_true] at hall
    rw [List.foldl_cons]
    refine ih _ ?_ hall.2
    cases op with
    | add r c =>
      refine noSystemInTail_add N r c s ?_ hs
      have h1 := hall.1
      simp only [convOpOk, bne] at h1
      simpa using h1
    | setSys c => exact noSystemInTail_setSys c s

lemma noSystemInTail_claim (l : List Msg) (h : noSystemInTail l) :
    countSystem l ≤ 1 ∧
    ∀ (i : Nat) (hi : i < l.length), (l.get ⟨i, hi⟩).role = "system" → i = 0 := by
  cases l with
  | nil =>
    constructor
    · simp [countSystem]
    · intro i hi
      simp at hi
  | cons a t =>
    have ht : countSystem t = 0 := h
    constructor
    · have hc : countSystem (a :: t) ≤ 1 + countSystem t := by
        simp only [countSystem, List.filter_cons]
        split
        · simp only [List.length_cons]
          omega
        · omega
      omega
    · intro i hi hrole
      cases i with
      | zero => rfl
      | succ j =>
        exfalso
        have hj : j < t.length := by
          simp only [List.length_cons] at hi
          omega
        have hget : (a :: t).get ⟨j + 1, hi⟩ = t.get ⟨j, hj⟩ := rfl
        have hm : t.get ⟨j, hj⟩ ∈ t := List.get_mem t j hj
        have hz := (countSystem_eq_zero.mp ht) _ hm
        rw [hget] at hrole
        rw [hrole] at hz
        simp at hz

/- ===== Claim theorems: conversation cache and enqueue ===== -/

/-- C1 (counterexample): the claim "the cache never exceeds capacity after
any operation" is false as stated.  With capacity 1, appending one user
message and then setting a system message leaves 2 stored messages,
because `set_system_message` inserts without trimming. -/
theorem set_system_message_exceeds_capacity :
    ¬ ((runConvOps 1 [ConvOp.add "user" "a", ConvOp.setSys "s"]).length ≤ 1) := by
  decide

/-- C1 (amended): after any `add_message`, the cache holds at most
`max_messages` messages provided the number of system messages in the
appended state is below capacity.  (When the system count reaches or
exceeds capacity, `other_messages[-keep_count:]` with `keep_count <= 0`
keeps a suffix of the non-system messages rather than none of them, and
`set_system_message` never trims, so the bound can fail there.) -/
theorem addMessage_capacity_of_system_lt (N : Nat) (msgs : List Msg) (role content : String)
    (h : countSystem (msgs ++ [⟨role, content⟩]) < N) :
    (addMessage N role content msgs).length ≤ N := by
  have hN : 0 < N := Nat.lt_of_le_of_lt (Nat.zero_le _) h
  have hcs : ((msgs ++ [(⟨role, content⟩ : Msg)]).filter
      (fun m => m.role == "system")).length < N := h
  unfold addMessage trimMessages
  split_ifs with h1 h2
  · exact h1
  · unfold pySliceFrom
    rw [if_neg (by omega : ¬ (0 : Int) ≤ -(N : Int))]
    rw [List.length_drop]
    omega
  · unfold pySliceFrom
    rw [if_neg (by omega :
      ¬ (0 : Int) ≤ -((N : Int) - ((msgs ++ [(⟨role, content⟩ : Msg)]).filter
        (fun m => m.role == "system")).length))]
    rw [List.length_append, List.length_drop]
    omega

/-- C1 (witness for the amended theorem at a concrete input). -/
theorem addMessage_capacity_witness :
    countSystem ([] ++ [(⟨"user", "x"⟩ : Msg)]) < 3 ∧
    (addMessage 3 "user" "x" []).length ≤ 3 :=
  ⟨by decide, addMessage_capacity_of_system_lt 3 [] "user" "x" (by decide)⟩

/-- C6 (counterexample): the claim "any system message present is at index
0 after every sequence of operations (append with any role, ...)" is false:
`add_message("system", ...)` appends at the end, so after appending a user
message and then a system message the system message sits at index 1. -/
theorem system_append_not_first :
    ¬ (countSystem (runConvOps 100 [ConvOp.add "user" "a", ConvOp.add "system" "b"]) ≤ 1 ∧
       ∀ (i : Nat)
         (hi : i < (runConvOps 100 [ConvOp.add "user" "a", ConvOp.add "system" "b"]).length),
         ((runConvOps 100 [ConvOp.add "user" "a", ConvOp.add "system" "b"]).get
           ⟨i, hi⟩).role = "system" → i = 0) := by
  intro hc
  have h1 : (1 : Nat) <
      (runConvOps 100 [ConvOp.add "user" "a", ConvOp.add "system" "b"]).length := by
    decide
  have h2 := hc.2 1 h1 rfl
  exact absurd h2 (by decide)

/-- C6 (amended): the invariant holds for every sequence of operations in
which `add_message` is never called with role `"system"` (system messages
enter only via `set_system_message`): the cache then contains at most one
system message, and any system message present is at index 0. -/
theorem system_invariant_non_system_appends (N : Nat) (ops : List ConvOp)
    (h : (ops.all convOpOk) = true) :
    countSystem (runConvOps N ops) ≤ 1 ∧
    ∀ (i : Nat) (hi : i < (runConvOps N ops).length),
      ((runConvOps N ops).get ⟨i, hi⟩).role = "system" → i = 0 :=
  noSystemInTail_claim _
    (runConvOps_inv N ops [] (by simp [noSystemInTail, countSystem]) h)

/-- C6 (witness for the amended theorem at a concrete input). -/
theorem system_invariant_witness :
    (([ConvOp.add "user" "a", ConvOp.setSys "s"] : List ConvOp).all convOpOk) = true ∧
    (countSystem (runConvOps 5 [ConvOp.add "user" "a", ConvOp.setSys "s"]) ≤ 1 ∧
     ∀ (i : Nat) (hi : i < (runConvOps 5 [ConvOp.add "user" "a", ConvOp.setSys "s"]).length),
       ((runConvOps 5 [ConvOp.add "user" "a", ConvOp.setSys "s"]).get
         ⟨i, hi⟩).role = "system" → i = 0) :=
  ⟨by decide, system_invariant_non_system_appends 5 _ (by decide)⟩

/-- C8: enqueueing while the worker is busy returns `False` and leaves the
worker state (pending task, current model, conversation cache) unchanged;
in particular a busy `send_message` does not append the user message. -/
theorem enqueue_while_busy_rejected (s : WorkerState) (message context : String)
    (h : s.isBusy = true) :
    loadModels s = (false, s) ∧ sendMessageEnqueue message context s = (false, s) := by
  constructor
  · unfold loadModels
    rw [if_pos h]
  · unfold sendMessageEnqueue
    split_ifs with h1
    · rfl
    · rfl

/-- C8 (witness at a concrete busy state). -/
theorem enqueue_while_busy_witness :
    (⟨true, some WTask.sendMessage, some "m", [], 100⟩ : WorkerState).isBusy = true ∧
    (loadModels ⟨true, some WTask.sendMessage, some "m", [], 100⟩ =
        (false, ⟨true, some WTask.sendMessage, some "m", [], 100⟩) ∧
      sendMessageEnqueue "hi" "" ⟨true, some WTask.sendMessage, some "m", [], 100⟩ =
        (false, ⟨true, some WTask.sendMessage, some "m", [], 100⟩)) :=
  ⟨rfl, enqueue_while_busy_rejected ⟨true, some WTask.sendMessage, some "m", [], 100⟩
    "hi" "" rfl⟩

/- ===== RequestManager retry policy (src/ollama_worker.py:50-110) ===== -/

/-- The response object attached to a `requests.exceptions.HTTPError`. -/
structure HTTPResponse where
  statusCode : Nat
deriving DecidableEq, Repr

/-- Truthiness of a `requests.models.Response`: its `__bool__` returns
`self.ok`, which is `status_code < 400`.  This is what the Python
expression `if exception.response and ...` evaluates. -/
def responseTruthy (r : HTTPResponse) : Bool := r.statusCode < 400

/-- Classification of the exception caught by the retry loops: connection
error, timeout, HTTP status error (optionally carrying a response), or any
other exception. -/
inductive ReqException
  | connectionError
  | timeout
  | httpError (response : Option HTTPResponse)
  | other
deriving DecidableEq, Repr

/-- `RequestManager._should_retry` (src/ollama_worker.py:57-72): no retry
once `attempt >= max_retries`; retry on connection errors and timeouts;
for an `HTTPError` retry only when `exception.response and
500 <= exception.response.status_code < 600` is truthy. -/
def shouldRetry (maxRetries : Nat) (e : ReqException) (attempt : Nat) : Bool :=
  if maxRetries ≤ attempt then false
  else
    match e with
    | .connectionError => true
    | .timeout => true
    | .httpError resp =>
      match resp with
      | some r =>
        if responseTruthy r ∧ 500 ≤ r.statusCode ∧ r.statusCode < 600 then true
        else false
      | none => false
    | .other => false

/-- The exception kinds `_should_retry` accepts before the attempt cap
(the attempt-independent part of the decision). -/
def retryableKind : ReqException → Bool
  | .connectionError => true
  | .timeout => true
  | .httpError (some r) =>
    if responseTruthy r ∧ 500 ≤ r.statusCode ∧ r.statusCode < 600 then true else false
  | .httpError none => false
  | .other => false

/-- `RequestManager._exponential_backoff` (src/ollama_worker.py:50-55):
`min(1.0 * 2 ** attempt + random.uniform(0, 1), 30.0)`, with the sampled
jitter made an explicit argument. -/
def backoff (attempt : Nat) (jitter : ℚ) : ℚ :=
  min (1 * 2 ^ attempt + jitter) 30

/-- The attempt loop of `RequestManager.get_models`
(src/ollama_worker.py:74-110) for a request that fails on every attempt:
`fail i` is the exception raised by attempt `i`, `remaining` the iterations
left in `range(max_retries + 1)`.  Returns the number of attempts made
before the final `OllamaError` is raised. -/
def attemptsGo (maxRetries : Nat) (fail : Nat → ReqException) :
    Nat → Nat → Nat
  | 0, _ => 0
  | remaining + 1, attempt =>
    if shouldRetry maxRetries (fail attempt) attempt then
      1 + attemptsGo maxRetries fail remaining (attempt + 1)
    else 1

/-- Total attempts made by `get_models` when every attempt fails. -/
def getModelsAttempts (maxRetries : Nat) (fail : Nat → ReqException) : Nat :=
  attemptsGo maxRetries fail (maxRetries + 1) 0

lemma shouldRetry_eq (maxRetries : Nat) (e : ReqException) (attempt : Nat) :
    shouldRetry maxRetries e attempt = (decide (attempt < maxRetries) && retryableKind e) := by
  unfold shouldRetry retryableKind
  by_cases h : maxRetries ≤ attempt
  · rw [if_pos h]
    have : decide (attempt < maxRetries) = false := by
      simp only [decide_eq_false_iff_not]
      omega
    rw [this, Bool.false_and]
  · rw [if_neg h]
    have : decide (attempt < maxRetries) = true := by
      simp only [decide_eq_true_eq]
      omega
    rw [this, Bool.true_and]
    cases e with
    | connectionError => rfl
    | timeout => rfl
    | other => rfl
    | httpError resp => cases resp <;> rfl

lemma attemptsGo_all_retryable (maxRetries : Nat) (fail : Nat → ReqException)
    (hfail : ∀ i, retryableKind (fail i) = true) :
    ∀ (remaining attempt : Nat), attempt + remaining = maxRetries + 1 →
      attemptsGo maxRetries fail remaining attempt = remaining := by
  intro remaining
  induction remaining with
  | zero => intro attempt _; rfl
  | succ r ih =>
    intro attempt hsum
    unfold attemptsGo
    rw [shouldRetry_eq, hfail attempt, Bool.and_true]
    by_cases hlt : attempt < maxRetries
    · rw [if_pos (by simpa using hlt)]
      rw [ih (attempt + 1) (by omega)]
      omega
    · have hr : r = 0 := by omega
      have : decide (attempt < maxRetries) = false := by
        simp only [decide_eq_false_iff_not]; omega
      rw [this]
      simp [hr]

/- ===== Claim theorems: retry policy ===== -/

/-- C2 (code bug): the claim says a 5xx response is retried, and the code's
own comment says so too, but `_should_retry` tests
`if exception.response and 500 <= ... < 600` and `requests.Response`
truthiness is `status_code < 400`, so the response object is falsy for
every error status and no `HTTPError` is ever retried.  Connection errors
and timeouts are retried, and 4xx is (as claimed) not retried. -/
theorem shouldRetry_5xx_dead_branch :
    shouldRetry 3 (ReqException.httpError (some ⟨500⟩)) 0 = false ∧
    shouldRetry 3 (ReqException.httpError (some ⟨503⟩)) 2 = false ∧
    shouldRetry 3 ReqException.connectionError 0 = true ∧
    shouldRetry 3 ReqException.timeout 2 = true ∧
    shouldRetry 3 ReqException.connectionError 3 = false ∧
    shouldRetry 3 (ReqException.httpError (some ⟨404⟩)) 0 = false := by
  decide

/-- C9 (counterexample): the claim "a request that always fails makes
exactly k+1 total attempts" is false as stated: with `max_retries = 1`, a
request that always fails with an HTTP 404 error makes exactly 1 attempt,
not 2, because the failure is not retryable. -/
theorem always_fail_404_single_attempt :
    ¬ (getModelsAttempts 1 (fun _ => ReqException.httpError (some ⟨404⟩)) = 1 + 1) := by
  decide

/-- C9 (amended): with `max_retries = k`, a request that always fails with
a retryable failure (a connection error or a timeout; due to the response
truthiness slip no `HTTPError` is retryable) makes exactly `k + 1`
attempts; if the first failure is not retryable it makes exactly 1
attempt; and every inter-attempt delay is
`min(1 * 2 ** attempt + jitter, 30)`, hence capped at 30 seconds and
monotone in the attempt index for any fixed jitter (so non-decreasing in
expectation). -/
theorem retry_attempt_count_and_backoff (k : Nat) (fail : Nat → ReqException) :
    ((∀ i, retryableKind (fail i) = true) → getModelsAttempts k fail = k + 1) ∧
    (retryableKind (fail 0) = false → getModelsAttempts k fail = 1) ∧
    (∀ (a b : Nat) (j : ℚ), backoff a j ≤ 30 ∧ (a ≤ b → backoff a j ≤ backoff b j)) := by
  refine ⟨?_, ?_, ?_⟩
  · intro hfail
    exact attemptsGo_all_retryable k fail hfail (k + 1) 0 (by omega)
  · intro h0
    unfold getModelsAttempts attemptsGo
    rw [shouldRetry_eq, h0, Bool.and_false]
    rfl
  · intro a b j
    constructor
    · exact min_le_right _ _
    · intro hab
      unfold backoff
      refine min_le_min (add_le_add_right ?_ j) le_rfl
      have h2 : (1 : ℚ) ≤ 2 := by norm_num
      simpa using pow_le_pow_right₀ h2 hab

/-- C9 (witness for the amended theorem at concrete inputs). -/
theorem retry_attempt_count_witness :
    getModelsAttempts 2 (fun _ => ReqException.connectionError) = 2 + 1 ∧
    getModelsAttempts 2 (fun _ => ReqException.httpError (some ⟨500⟩)) = 1 ∧
    backoff 3 (1 / 2) ≤ 30 :=
  ⟨(retry_attempt_count_and_backoff 2 (fun _ => ReqException.connectionError)).1
      (fun _ => rfl),
   (retry_attempt_count_and_backoff 2
      (fun _ => ReqException.httpError (some ⟨500⟩))).2.1 rfl,
   ((retry_attempt_count_and_backoff 2 (fun _ => ReqException.timeout)).2.2 3 3 (1 / 2)).1⟩

/- ===== Streaming chat and the send-message handler
   (src/ollama_worker.py:112-224 and 527-645) ===== -/

/-- One parsed line of the newline-delimited JSON stream: `content` is
`message.content` when the `message` and `content` keys are present,
`done` is `chunk.get('done', False)`. -/
structure Chunk where
  content : Option String
  done : Bool
deriving DecidableEq, Repr

/-- One raw line of the HTTP body: empty (falsy, skipped without a parse
attempt), malformed JSON (skipped), or a line parsing to a chunk. -/
inductive RawLine
  | empty
  | malformed
  | chunk (c : Chunk)
deriving DecidableEq, Repr

/-- What happens when the connected stream runs out of lines: it ends
normally, or the read fails and `chat_stream` — after its internal
retries, abstracted here — raises `OllamaError`. -/
inductive StreamTail
  | ok
  | err
deriving DecidableEq, Repr

/-- Outcome of the `chat_stream` generator. -/
inductive GenOutcome
  | stopped
  | completed
  | raised
deriving DecidableEq, Repr

/-- The per-line loop of `RequestManager.chat_stream`
(src/ollama_worker.py:154-174): before each line the stop event is checked
(`stop n` is the value observed by the n-th check of the whole execution);
a falsy or malformed line is skipped; a parsed chunk is yielded.  The
generator itself never inspects `done`. -/
def chatStreamGen (stop : Nat → Bool) (tail : StreamTail) :
    List RawLine → Nat → List Chunk × GenOutcome
  | [], _ =>
    match tail with
    | .ok => ([], .completed)
    | .err => ([], .raised)
  | l :: rest, n =>
    if stop n then ([], .stopped)
    else
      match l with
      | .chunk c =>
        let r := chatStreamGen stop tail rest (n + 1)
        (c :: r.1, r.2)
      | _ => chatStreamGen stop tail rest (n + 1)

/-- `chat_stream` on a successful connection: the pre-connection stop
check (src/ollama_worker.py:135-138) followed by the line loop. -/
def chatStreamRun (stop : Nat → Bool) (tail : StreamTail) (lines : List RawLine) :
    List Chunk × GenOutcome :=
  if stop 0 then ([], GenOutcome.stopped) else chatStreamGen stop tail lines 1

/-- An event emitted (as a Qt signal) during `_handle_send_message`. -/
inductive WEvent
  | delta (s : String)
  | completed (s : String)
  | errorEv (s : String)
  | stopped
deriving DecidableEq, Repr

/-- Result of one `_handle_send_message` execution: the events emitted in
order, the (role, content) pairs appended to the conversation cache by the
streaming phase, the raw lines never consumed from the stream, and whether
one of the worker's own stop checks (the pre-start check at line 535 or a
per-chunk check at line 583) observed the flag set. -/
structure SendResult where
  events : List WEvent
  appends : List (String × String)
  remaining : List RawLine
  observed : Bool
deriving DecidableEq, Repr

/-- The content deltas emitted for one received chunk
(src/ollama_worker.py:588-592): only a present, non-empty
`message.content` is emitted. -/
def deltaEvents (content : Option String) : List WEvent :=
  match content with
  | some s => if s ≠ "" then [WEvent.delta s] else []
  | none => []

/-- The running full-response accumulation for one received chunk. -/
def accumContent (full : String) (content : Option String) : String :=
  match content with
  | some s => if s ≠ "" then full ++ s else full
  | none => full

/-- The completion stage of `_handle_send_message`
(src/ollama_worker.py:623-637): a final stop check, then append-and-emit
completion on a non-empty accumulated response, bare completion when the
stream started but produced nothing, error otherwise. -/
def finalStage (stop : Nat → Bool) (n : Nat) (full : String) (started : Bool)
    (rem : List RawLine) : SendResult :=
  if stop n then ⟨[WEvent.stopped], [], rem, false⟩
  else if full ≠ "" then ⟨[WEvent.completed full], [("assistant", full)], rem, false⟩
  else if started then ⟨[WEvent.completed ""], [], rem, false⟩
  else ⟨[WEvent.errorEv "Nessuna risposta ricevuta dal modello"], [], rem, false⟩

/-- Synchronous composition of the generator line loop with the worker's
chunk loop (src/ollama_worker.py:154-174 interleaved with 579-621): per
line the generator checks stop and yields parsed chunks; per yielded chunk
the worker marks the stream started, checks stop again, accumulates and
emits non-empty content, and breaks when `done` is true, leaving the
remaining lines unconsumed.  An exhausted stream with `tail = .err` models
the `OllamaError` caught at lines 607-613. -/
def sendLoop (stop : Nat → Bool) (tail : StreamTail) :
    List RawLine → Nat → String → Bool → SendResult
  | [], n, full, started =>
    match tail with
    | .ok => finalStage stop n full started []
    | .err =>
      if stop n then ⟨[WEvent.stopped], [], [], false⟩
      else ⟨[WEvent.errorEv "Errore nella richiesta di chat"], [], [], false⟩
  | l :: rest, n, full, started =>
    if stop n then finalStage stop (n + 1) full started (l :: rest)
    else
      match l with
      | .empty => sendLoop stop tail rest (n + 1) full started
      | .malformed => sendLoop stop tail rest (n + 1) full started
      | .chunk c =>
        if stop (n + 1) then ⟨[WEvent.stopped], [], rest, true⟩
        else
          if c.done then
            SendResult.mk
              (deltaEvents c.content ++
                (finalStage stop (n + 2) (accumContent full c.content) true rest).events)
              (finalStage stop (n + 2) (accumContent full c.content) true rest).appends
              (finalStage stop (n + 2) (accumContent full c.content) true rest).remaining
              (finalStage stop (n + 2) (accumContent full c.content) true rest).observed
          else
            SendResult.mk
              (deltaEvents c.content ++
                (sendLoop stop tail rest (n + 2) (accumContent full c.content) true).events)
              (sendLoop stop tail rest (n + 2) (accumContent full c.content) true).appends
              (sendLoop stop tail rest (n + 2) (accumContent full c.content) true).remaining
              (sendLoop stop tail rest (n + 2) (accumContent full c.content) true).observed

/-- `OllamaWorker._handle_send_message` (src/ollama_worker.py:527-645):
model-selected check, pre-start stop check (line 535), empty-conversation
check, then the generator's pre-connection stop check and the streaming
loop. -/
def runSend (modelSelected hasMessages : Bool) (stop : Nat → Bool)
    (lines : List RawLine) (tail : StreamTail) : SendResult :=
  if !modelSelected then
    ⟨[WEvent.errorEv "Nessun modello selezionato"], [], lines, false⟩
  else if stop 0 then ⟨[WEvent.stopped], [], lines, true⟩
  else if !hasMessages then
    ⟨[WEvent.errorEv "Nessun messaggio da inviare"], [], lines, false⟩
  else if stop 1 then finalStage stop 2 "" false lines
  else sendLoop stop tail lines 2 "" false

/- ===== Claim theorems: cancellation and streaming ===== -/

/-- C4: with the cancellation signal set before any chunk is read (set for
every observation), `chat_stream` yields zero chunks and terminates as a
clean stop (not an error or a raise), and the send-message execution of a
worker with a selected model emits exactly the stopped event — never an
error or a completion — appending nothing to the cache. -/
theorem cancel_before_start_stops (stop : Nat → Bool) (lines : List RawLine)
    (tail : StreamTail) (hasMessages : Bool) (h : ∀ i, stop i = true) :
    chatStreamRun stop tail lines = ([], GenOutcome.stopped) ∧
    runSend true hasMessages stop lines tail = ⟨[WEvent.stopped], [], lines, true⟩ := by
  constructor
  · unfold chatStreamRun
    rw [if_pos (of_decide_eq_true (by rw [h 0]; rfl))]
  · unfold runSend
    simp [h 0]

/-- C4 (witness at a concrete input). -/
theorem cancel_before_start_witness :
    (fun _ : Nat => true) 0 = true ∧
    (chatStreamRun (fun _ => true) StreamTail.ok
        [RawLine.chunk ⟨some "a", false⟩] = ([], GenOutcome.stopped) ∧
      runSend true true (fun _ => true) [RawLine.chunk ⟨some "a", false⟩] StreamTail.ok =
        ⟨[WEvent.stopped], [], [RawLine.chunk ⟨some "a", false⟩], true⟩) :=
  ⟨rfl, cancel_before_start_stops (fun _ => true) [RawLine.chunk ⟨some "a", false⟩]
    StreamTail.ok true (fun _ => rfl)⟩

/-- C5: for the well-formed two-line stream `a`,`b(done)` with no
cancellation, the worker emits the deltas "a" then "b" in order, then a
completion carrying "ab"; it appends exactly one assistant message "ab" to
the conversation cache and consumes no lines after the `done` line. -/
theorem two_chunk_stream_events (rest : List RawLine) (tail : StreamTail) :
    runSend true true (fun _ => false)
      (RawLine.chunk ⟨some "a", false⟩ :: RawLine.chunk ⟨some "b", true⟩ :: rest) tail =
    ⟨[WEvent.delta "a", WEvent.delta "b", WEvent.completed "ab"],
      [("assistant", "ab")], rest, false⟩ := by
  rfl

lemma finalStage_observed (stop : Nat → Bool) (n : Nat) (full : String)
    (started : Bool) (rem : List RawLine) :
    (finalStage stop n full started rem).observed = false := by
  unfold finalStage
  split_ifs <;> rfl

lemma deltaEvents_no_completed (c : Option String) (s : String) :
    WEvent.completed s ∉ deltaEvents c := by
  unfold deltaEvents
  cases c with
  | none => simp
  | some s0 => split <;> simp

lemma deltaEvents_no_errorEv (c : Option String) (s : String) :
    WEvent.errorEv s ∉ deltaEvents c := by
  unfold deltaEvents
  cases c with
  | none => simp
  | some s0 => split <;> simp

lemma sendLoop_observed_stopped (stop : Nat → Bool) (tail : StreamTail) :
    ∀ (lines : List RawLine) (n : Nat) (full : String) (started : Bool),
      (sendLoop stop tail lines n full started).observed = true →
      WEvent.stopped ∈ (sendLoop stop tail lines n full started).events ∧
      (sendLoop stop tail lines n full started).appends = [] ∧
      (∀ s, WEvent.completed s ∉ (sendLoop stop tail lines n full started).events) ∧
      (∀ s, WEvent.errorEv s ∉ (sendLoop stop tail lines n full started).events) := by
  intro lines
  induction lines with
  | nil =>
    intro n full started h
    unfold sendLoop at h
    cases tail with
    | ok => rw [finalStage_observed] at h; exact absurd h (by simp)
    | err =>
      split_ifs at h
  | cons l rest ih =>
    intro n full started h
    cases l with
    | empty =>
      simp only [sendLoop] at h ⊢
      by_cases h0 : stop n = true
      · rw [if_pos h0] at h ⊢
        rw [finalStage_observed] at h
        exact absurd h (by simp)
      · rw [if_neg h0] at h ⊢
        exact ih (n + 1) full started h
    | malformed =>
      simp only [sendLoop] at h ⊢
      by_cases h0 : stop n = true
      · rw [if_pos h0] at h ⊢
        rw [finalStage_observed] at h
        exact absurd h (by simp)
      · rw [if_neg h0] at h ⊢
        exact ih (n + 1) full started h
    | chunk c =>
      simp only [sendLoop] at h ⊢
      by_cases h0 : stop n = true
      · rw [if_pos h0] at h ⊢
        rw [finalStage_observed] at h
        exact absurd h (by simp)
      · rw [if_neg h0] at h ⊢
        by_cases h1 : stop (n + 1) = true
        · rw [if_pos h1] at h ⊢
          refine ⟨by simp, rfl, ?_, ?_⟩ <;> intro s <;> simp
        · rw [if_neg h1] at h ⊢
          by_cases hd : c.done = true
          · rw [if_pos hd] at h ⊢
            simp only [] at h
            rw [finalStage_observed] at h
            exact absurd h (by simp)
          · rw [if_neg hd] at h ⊢
            simp only [] at h
            obtain ⟨hmem, happ, hcomp, herr⟩ :=
              ih (n + 2) (accumContent full c.content) true h
            refine ⟨List.mem_append_right _ hmem, happ, ?_, ?_⟩
            · intro s hs
              rcases List.mem_append.mp hs with hs1 | hs2
              · exact deltaEvents_no_completed c.content s hs1
              · exact hcomp s hs2
            · intro s hs
              rcases List.mem_append.mp hs with hs1 | hs2
              · exact deltaEvents_no_errorEv c.content s hs1
              · exact herr s hs2

/-- C7: in every send-message execution in which a worker stop check (the
pre-start check or a per-chunk check) observes the cancellation flag set,
the worker emits the stopped event, never a completion or an error, and
appends nothing to the conversation cache (no partial assistant
message). -/
theorem observed_stop_no_partial_append (modelSelected hasMessages : Bool)
    (stop : Nat → Bool) (lines : List RawLine) (tail : StreamTail)
    (h : (runSend modelSelected hasMessages stop lines tail).observed = true) :
    WEvent.stopped ∈ (runSend modelSelected hasMessages stop lines tail).events ∧
    (runSend modelSelected hasMessages stop lines tail).appends = [] ∧
    (∀ s, WEvent.completed s ∉ (runSend modelSelected hasMessages stop lines tail).events) ∧
    (∀ s, WEvent.errorEv s ∉ (runSend modelSelected hasMessages stop lines tail).events) := by
  unfold runSend at h ⊢
  split_ifs at h ⊢ with h1 h2 h3 h4
  · exact ⟨by simp, rfl, fun s => by simp, fun s => by simp⟩
  · rw [finalStage_observed] at h
    exact absurd h (by simp)
  · exact sendLoop_observed_stopped stop tail lines 2 "" false h

/-- C7 (witness at a concrete input where the pre-start check observes the
flag). -/
theorem observed_stop_witness :
    (runSend true true (fun _ => true) [] StreamTail.ok).observed = true ∧
    (WEvent.stopped ∈ (runSend true true (fun _ => true) [] StreamTail.ok).events ∧
      (runSend true true (fun _ => true) [] StreamTail.ok).appends = [] ∧
      (∀ s, WEvent.completed s ∉ (runSend true true (fun _ => true) [] StreamTail.ok).events) ∧
      (∀ s, WEvent.errorEv s ∉ (runSend true true (fun _ => true) [] StreamTail.ok).events)) :=
  ⟨rfl, observed_stop_no_partial_append true true (fun _ => true) [] StreamTail.ok rfl⟩

/- ===== KnowledgeBase retrieval (src/project_manager.py:729-862) ===== -/

/-- Python `str.split()` (split on whitespace runs, no empty words). -/
def pySplitWs : List Char → List (List Char)
  | [] => []
  | c :: cs =>
    if pyIsSpace c then pySplitWs cs
    else (c :: cs.takeWhile (fun d => !pyIsSpace d)) ::
      pySplitWs (cs.dropWhile (fun d => !pyIsSpace d))
termination_by l => l.length
decreasing_by
  all_goals simp_wf
  all_goals exact Nat.lt_succ_of_le (length_dropWhile_le _ _)

/-- Helper for Python `str.find`: first index at or after `i` where
`needle` occurs in `l`, else none. -/
def pyFindGo (needle : List Char) : List Char → Nat → Option Nat
  | l, i =>
    if needle.isPrefixOf l then some i
    else
      match l with
      | [] => none
      | _ :: t => pyFindGo needle t (i + 1)

/-- Python `hay.find(needle)`: `some index` instead of the index, `none`
instead of `-1` (the callers only test `!= -1`).  `find` of the empty
needle is 0, as in Python. -/
def pyFind (hay needle : List Char) : Option Nat := pyFindGo needle hay 0

/-- The query-word list of `_extract_relevant_snippet`
(src/project_manager.py:832): `[w.strip().lower() for w in query.split()
if len(w.strip()) > 2]`. -/
def queryWordsOf (query : PyStr) : List PyStr :=
  (((pySplitWs query).map pyStrip).filter (fun w => 2 < w.length)).map
    (List.map Char.toLower)

/-- First word of the list found in the lowered content, with its index
(the loop at src/project_manager.py:841-845). -/
def findFirstWord (contentLower : PyStr) : List PyStr → Option Nat
  | [] => none
  | w :: ws =>
    match pyFind contentLower w with
    | some i => some i
    | none => findFirstWord contentLower ws

/-- `best_index` of `_extract_relevant_snippet`
(src/project_manager.py:831-845): the full lowered query first, then the
individual words. -/
def bestIndex (content query : PyStr) : Option Nat :=
  match pyFind (content.map Char.toLower) (query.map Char.toLower) with
  | some i => some i
  | none => findFirstWord (content.map Char.toLower) (queryWordsOf query)

/-- `start = max(0, best_index - max_length // 3)`
(src/project_manager.py:852); integer division is exact for the positive
`max_length` this is called with. -/
def snipStart (best : Nat) (maxLength : Int) : Int :=
  max 0 ((best : Int) - maxLength / 3)

/-- `end = min(len(content), start + max_length)` (src/project_manager.py:853). -/
def snipEnd (contentLen : Nat) (best : Nat) (maxLength : Int) : Int :=
  min (contentLen : Int) (snipStart best maxLength + maxLength)

/-- `snippet = content[start:end]` (src/project_manager.py:854). -/
def snipCore (content : PyStr) (best : Nat) (maxLength : Int) : PyStr :=
  (content.drop (snipStart best maxLength).toNat).take
    (snipEnd content.length best maxLength - snipStart best maxLength).toNat

/-- The ellipsis decoration of the window (src/project_manager.py:856-860):
`"..."` is prepended when the window was clipped on the left and appended
when clipped on the right. -/
def snipAssembled (content : PyStr) (best : Nat) (maxLength : Int) : PyStr :=
  if snipEnd content.length best maxLength < (content.length : Int) then
    (if 0 < snipStart best maxLength then "...".data ++ snipCore content best maxLength
      else snipCore content best maxLength) ++ "...".data
  else
    (if 0 < snipStart best maxLength then "...".data ++ snipCore content best maxLength
      else snipCore content best maxLength)

/-- `KnowledgeBase._extract_relevant_snippet`
(src/project_manager.py:823-862). -/
def extractRelevantSnippet (content query : PyStr) (maxLength : Int) : PyStr :=
  if maxLength ≤ 0 then []
  else
    match bestIndex content query with
    | none => content.take maxLength.toNat
    | some best => snipAssembled content best maxLength

/-- One candidate file of the context-assembly loop of
`get_context_for_query` (src/project_manager.py:789-815): its filename and
the result of `get_file_content` for its id (`none` models a falsy
result). -/
structure Candidate where
  filename : PyStr
  content : Option PyStr
deriving DecidableEq, Repr

/-- `file_header = f"=== FILE: {filename} ===\n"` (src/project_manager.py:797). -/
def fileHeaderOf (filename : PyStr) : PyStr :=
  "=== FILE: ".data ++ filename ++ " ===\n".data

/-- The fixed context header (src/project_manager.py:786). -/
def ctxHeader : PyStr := "CONTESTO DALLA KNOWLEDGE BASE:\n\n".data

/-- `addition = file_header + content_snippet + "\n\n"`
(src/project_manager.py:800-804). -/
def additionOf (query : PyStr) (maxLen : Int) (ctx : PyStr) (filename fc : PyStr) : PyStr :=
  fileHeaderOf filename ++
    extractRelevantSnippet fc query
      (min 800 (maxLen - (ctx.length : Int) - ((fileHeaderOf filename).length : Int) - 10)) ++
    "\n\n".data

/-- The assembly loop of `get_context_for_query`
(src/project_manager.py:789-815): for each of the (at most 3) candidates,
break once at capacity; skip files with falsy or short content; append the
addition when it fits; otherwise truncate it to the remaining budget plus
an `"...\n\n"` marker when more than 100 characters remain, and break. -/
def buildLoop (query : PyStr) (maxLen : Int) : List Candidate → PyStr → PyStr
  | [], ctx => ctx
  | r :: rest, ctx =>
    if maxLen ≤ (ctx.length : Int) then ctx
    else
      match r.content with
      | none => buildLoop query maxLen rest ctx
      | some fc =>
        if fc ≠ [] ∧ 10 < (pyStrip fc).length then
          if (ctx.length : Int) + ((additionOf query maxLen ctx r.filename fc).length : Int)
              ≤ maxLen then
            buildLoop query maxLen rest (ctx ++ additionOf query maxLen ctx r.filename fc)
          else if 100 < maxLen - (ctx.length : Int) then
            ctx ++ (additionOf query maxLen ctx r.filename fc).take
              (maxLen - (ctx.length : Int)).toNat ++ "...\n\n".data
          else ctx
        else buildLoop query maxLen rest ctx

/-- The context assembly of `KnowledgeBase.get_context_for_query`
(src/project_manager.py:781-821), taking the deduplicated search results
(with their file contents) as input: empty when there are no candidates,
otherwise the stripped result of the loop over the first 3 candidates
seeded with the fixed header. -/
def getContextCore (results : List Candidate) (query : PyStr) (maxLen : Int) : PyStr :=
  if results.isEmpty then []
  else pyStrip (buildLoop query maxLen (results.take 3) ctxHeader)

lemma length_take_le (i : Nat) (l : List α) : (l.take i).length ≤ i := by
  rw [List.length_take]
  exact min_le_left _ _

/- ===== Claim theorems: snippet extraction and context assembly ===== -/

lemma snipCore_length_le (content : PyStr) (best : Nat) (maxLength : Int)
    (hpos : 0 < maxLength) :
    ((snipCore content best maxLength).length : Int) ≤ maxLength := by
  unfold snipCore
  have h1 := length_take_le
    (snipEnd content.length best maxLength - snipStart best maxLength).toNat
    (content.drop (snipStart best maxLength).toNat)
  have h2 : snipEnd content.length best maxLength ≤ snipStart best maxLength + maxLength :=
    min_le_right _ _
  have h3 : (0 : Int) ≤ snipStart best maxLength := le_max_left _ _
  omega

/-- C10: for positive `max_length` the snippet returned by
`_extract_relevant_snippet` has at most `max_length + 6` characters — the
centered window is at most `max_length` characters and each clipped side
adds a 3-character `"..."` marker on top — while the no-match branch
returns at most `max_length` characters. -/
theorem extract_snippet_length_bound (content query : PyStr) (maxLength : Int)
    (hpos : 0 < maxLength) :
    ((extractRelevantSnippet content query maxLength).length : Int) ≤ maxLength + 6 ∧
    (bestIndex content query = none →
      ((extractRelevantSnippet content query maxLength).length : Int) ≤ maxLength) := by
  rcases hbi : bestIndex content query with _ | best
  · have he : extractRelevantSnippet content query maxLength =
        content.take maxLength.toNat := by
      unfold extractRelevantSnippet
      rw [if_neg (by omega), hbi]
    rw [he]
    refine ⟨?_, fun _ => ?_⟩ <;>
    · have h1 := length_take_le maxLength.toNat content
      omega
  · have he : extractRelevantSnippet content query maxLength =
        snipAssembled content best maxLength := by
      unfold extractRelevantSnippet
      rw [if_neg (by omega), hbi]
    rw [he]
    constructor
    · have hc := snipCore_length_le content best maxLength hpos
      have hdots : ("...".data : List Char).length = 3 := rfl
      unfold snipAssembled
      split_ifs <;> (try simp only [List.length_append, hdots]) <;> push_cast <;> omega
    · intro hnone
      exact absurd hnone (by simp)

/-- C10 (witness): at `content = "xxxxxAyyyyy"`, `query = "A"`,
`max_length = 3` the window is clipped on both sides and the snippet is
`"...xAy..."`, 9 = 3 + 6 characters. -/
theorem extract_snippet_length_witness :
    (0 : Int) < 3 ∧
    (((extractRelevantSnippet ("xxxxxAyyyyy".data) ("A".data) 3).length : Int) ≤ 3 + 6 ∧
      (bestIndex ("xxxxxAyyyyy".data) ("A".data) = none →
        ((extractRelevantSnippet ("xxxxxAyyyyy".data) ("A".data) 3).length : Int) ≤ 3)) ∧
    (extractRelevantSnippet ("xxxxxAyyyyy".data) ("A".data) 3).length = 9 :=
  ⟨by norm_num,
   extract_snippet_length_bound ("xxxxxAyyyyy".data) ("A".data) 3 (by norm_num),
   by decide⟩

/-- C3 (counterexample): the claim "the context block has length at most
max_length" is false as stated: with `max_length = 10` and one matching
candidate file, the fixed header alone (30 characters after stripping) is
returned, since the loop breaks before the budget check can shorten it. -/
theorem getContext_header_exceeds_max_length :
    ¬ (((getContextCore
          [⟨"a.txt".data, some ("refund policy text content".data)⟩]
          ("refund".data) 10).length : Int) ≤ 10) := by
  decide

lemma length_pyStrip_trunc (ctx T : PyStr) :
    (pyStrip (ctx ++ T ++ "...\n\n".data)).length ≤ ctx.length + T.length + 3 := by
  have heq : ctx ++ T ++ "...\n\n".data =
      ((ctx ++ T) ++ "...".data) ++ "\n\n".data := by
    simp only [List.append_assoc]
    rfl
  rw [heq]
  have h := length_pyStrip_append_ws ((ctx ++ T) ++ "...".data) ("\n\n".data)
    (by decide)
  rw [List.length_append, List.length_append] at h
  have hd : ("...".data : List Char).length = 3 := rfl
  omega

lemma buildLoop_strip_bound (query : PyStr) (maxLen : Int) :
    ∀ (cands : List Candidate) (ctx : PyStr),
      ((pyStrip (buildLoop query maxLen cands ctx)).length : Int) ≤
        max (maxLen + 3) ((pyStrip ctx).length : Int) := by
  intro cands
  induction cands with
  | nil =>
    intro ctx
    exact le_max_right _ _
  | cons r rest ih =>
    intro ctx
    simp only [buildLoop]
    by_cases h0 : maxLen ≤ (ctx.length : Int)
    · rw [if_pos h0]
      exact le_max_right _ _
    · rw [if_neg h0]
      rcases hrc : r.content with _ | fc
      · exact ih ctx
      · dsimp only
        by_cases hg : fc ≠ [] ∧ 10 < (pyStrip fc).length
        · rw [if_pos hg]
          by_cases hfit : (ctx.length : Int) +
              ((additionOf query maxLen ctx r.filename fc).length : Int) ≤ maxLen
          · rw [if_pos hfit]
            refine le_trans (ih (ctx ++ additionOf query maxLen ctx r.filename fc)) ?_
            have h2 := length_pyStrip_le (ctx ++ additionOf query maxLen ctx r.filename fc)
            rw [List.length_append] at h2
            have h1 : ((pyStrip (ctx ++ additionOf query maxLen ctx r.filename fc)).length : Int)
                ≤ maxLen + 3 := by omega
            exact le_trans (max_le le_rfl h1) (le_max_left _ _)
          · rw [if_neg hfit]
            by_cases hrem : 100 < maxLen - (ctx.length : Int)
            · rw [if_pos hrem]
              refine le_trans ?_ (le_max_left _ _)
              show ((pyStrip (ctx ++ (additionOf query maxLen ctx r.filename fc).take
                  (maxLen - (ctx.length : Int)).toNat ++ "...\n\n".data)).length : Int)
                ≤ maxLen + 3
              have hb := length_pyStrip_trunc ctx
                ((additionOf query maxLen ctx r.filename fc).take
                  (maxLen - (ctx.length : Int)).toNat)
              have htk := length_take_le (maxLen - (ctx.length : Int)).toNat
                (additionOf query maxLen ctx r.filename fc)
              omega
            · rw [if_neg hrem]
              exact le_max_right _ _
        · rw [if_neg hg]
          exact ih ctx

/-- C3 (amended): for every candidate list, query and `max_length`, the
block returned by the context assembly of `get_context_for_query` has
length at most `max(max_length + 3, 30)`: the `"..."` marker appended
after truncating to the remaining budget survives the final strip (up to 3
characters beyond `max_length`), and when `max_length` is below the fixed
30-character header the header alone is still returned. -/
theorem getContext_length_bound (results : List Candidate) (query : PyStr) (maxLen : Int) :
    ((getContextCore results query maxLen).length : Int) ≤ max (maxLen + 3) 30 := by
  unfold getContextCore
  split_ifs with h
  · simp only [List.length_nil, Nat.cast_zero]
    exact le_trans (by norm_num) (le_max_right (maxLen + 3) 30)
  · have hb := buildLoop_strip_bound query maxLen (results.take 3) ctxHeader
    have hh : ((pyStrip ctxHeader).length : Int) = 30 := by decide
    rw [hh] at hb
    exact hb
